import Mathlib

/-!
Verification of the gitbot repository's core logic against its specification.

The definitions below are shallow embeddings of the Python source:
  * `lib/structs/discord/components/github_lines_view.py` (line-range pagination view),
  * `lib/api/github.py` (the `github_cached` decorator and `get_repo_zip`),
  * `lib/structs/db/user_collection.py` (`setitem` / `delitem`),
  * `cogs/github/other/loc.py` (`process_repo`, `lines_of_code_command`),
  * `cogs/github/base/user.py` and `cogs/rust/crates.py` (list truncation).

Python `int` is embedded as `Int`; `int | None` as `Option Int`; machine-level
concerns do not arise (Python integers are unbounded).
-/

/-! ## Line-range pagination (`github_lines_view.py`)

`GitHubLinesButton.get_next_lines` (lines 105-116 of the source):

    if forward:
        if l2 is not None:
            l1 = l2 + 1
            l2 += 25
        else:
            l2 = l1 + 25
    else:
        l2 = l1 - 1
        l1 -= 25
    return max(l1, 1), max(l2, 1)
-/

/-- The pre-clamp pair computed by `get_next_lines` before the final
`max(_, 1)` calls.  Separated out so that "clamping occurred" can be stated. -/
def get_next_lines_raw (l1 : Int) (l2 : Option Int) (forward : Bool) : Int × Int :=
  if forward then
    match l2 with
    | some v => (v + 1, v + 25)
    | none   => (l1, l1 + 25)
  else
    (l1 - 25, l1 - 1)

/-- Function `GitHubLinesButton.get_next_lines`: the new `(l1, l2)` window, both
components clamped to a minimum of 1. -/
def get_next_lines (l1 : Int) (l2 : Option Int) (forward : Bool) : Int × Int :=
  let r := get_next_lines_raw l1 l2 forward
  (max r.1 1, max r.2 1)

/-- One button press as a transformation of the `(l1, l2)` pair held by the
view: after `self.view.l1, self.view.l2 = self.get_next_lines(...)` the second
component is an `int`, never `None`. -/
def stepLines (forward : Bool) (s : Int × Option Int) : Int × Option Int :=
  let r := get_next_lines s.1 s.2 forward
  (r.1, some r.2)

/-- Whether the `max(_, 1)` clamps in `get_next_lines` actually changed a
component on this step (some pre-clamp component was below the floor of 1). -/
def stepClamps (forward : Bool) (s : Int × Option Int) : Bool :=
  let r := get_next_lines_raw s.1 s.2 forward
  decide (r.1 < 1) || decide (r.2 < 1)

/-- Iterate `n` consecutive presses of the same button. -/
def iterSteps (forward : Bool) : Nat → Int × Option Int → Int × Option Int
  | 0, s => s
  | n + 1, s => iterSteps forward n (stepLines forward s)

/-- Holds (`true`) when none of `n` consecutive presses of the same button clamps. -/
def clampFreeSteps (forward : Bool) : Nat → Int × Option Int → Bool
  | 0, _ => true
  | n + 1, s => !stepClamps forward s && clampFreeSteps forward n (stepLines forward s)

/-- C1: For every `l1 ≥ 1` and `l2` an integer or absent, `get_next_lines`
yields, forward with `l2` set: `(l2+1, l2+25)`; forward with `l2` absent:
`l1` unchanged and `l2' = l1+25`; backward: `(l1-25, l1-1)`; each component
clamped to a minimum of 1. -/
theorem get_next_lines_spec (l1 : Int) (h : 1 ≤ l1) (l2 : Option Int) :
    (∀ v, l2 = some v →
      get_next_lines l1 l2 true = (max (v + 1) 1, max (v + 25) 1)) ∧
    (l2 = none → get_next_lines l1 l2 true = (l1, max (l1 + 25) 1)) ∧
    get_next_lines l1 l2 false = (max (l1 - 25) 1, max (l1 - 1) 1) := by
  refine ⟨fun v hv => ?_, fun hv => ?_, ?_⟩
  · simp [get_next_lines, get_next_lines_raw, hv]
  · simp [get_next_lines, get_next_lines_raw, hv]; omega
  · simp [get_next_lines, get_next_lines_raw]

theorem get_next_lines_spec_witness :
    get_next_lines 3 (some 10) true = (11, 35) ∧
    get_next_lines 3 none true = (3, 28) ∧
    get_next_lines 3 none false = (1, 2) := by
  have h := get_next_lines_spec 3 (by decide) (some 10)
  have h' := get_next_lines_spec 3 (by decide) none
  refine ⟨?_, ?_, ?_⟩
  · rw [h.1 10 rfl]; decide
  · rw [h'.2.1 rfl]; decide
  · rw [h'.2.2]; decide

/-! ## The pagination view as a state machine

`GitHubLinesView.__init__` / `_set_originals` / `set_labels`, and the two
button callbacks.  Button labels are locale format strings; they are embedded
abstractly as `LinesLabel` (`view.format(1)` vs `view_from_to.format(a, b)`).
The re-fetch performed inside a callback (`get_text_from_url_and_data`) is an
external HTTP call; it enters the model as an `Option String` parameter
(`None` or the fetched text), matching the Python `Optional[str]` value. -/

/-- A navigation button label: `view.format(1)` or `view_from_to.format(a, b)`. -/
inductive LinesLabel where
  | single (n : Int)
  | fromTo (a b : Int)
  deriving DecidableEq

/-- Python `a or b` for `a : int | None`: `b` when `a` is `None` or `0`. -/
def py_or_int (a : Option Int) (b : Int) : Int :=
  match a with
  | some v => if v = 0 then b else v
  | none => b

/-- Python truthiness of an `Optional[str]`: `False` for `None` and `''`. -/
def py_truthy_str (s : Option String) : Bool :=
  match s with
  | some t => decide (t ≠ "")
  | none => false

/-- The mutable state of a `GitHubLinesView` relevant to the claims:
the current window, the originals captured by `_set_originals`, the revert
button's `disabled` flag, both navigation labels, and the displayed message
content. -/
structure FullViewState where
  l1 : Int
  l2 : Option Int
  original_l1 : Int
  original_l2 : Option Int
  revertDisabled : Bool
  backLabel : LinesLabel
  fwdLabel : LinesLabel
  content : Option String
  deriving DecidableEq

/-- Constructor `GitHubLinesView.__init__`: clamp `l1` to ≥ 1, capture the originals
(`_set_originals`), disable the revert button, and precompute both labels
(`_b_l1, _b_l2 = max(self.l1 - 25, 1), max(self.l1 - 1, 1)`). -/
def init_view (first_line : Int) (second_line : Option Int)
    (content0 : Option String) : FullViewState :=
  let l1 := max first_line 1
  let bl1 := max (l1 - 25) 1
  let bl2 := max (l1 - 1) 1
  { l1 := l1
    l2 := second_line
    original_l1 := l1
    original_l2 := second_line
    revertDisabled := true
    backLabel := if bl1 ≠ bl2 then .fromTo bl1 bl2 else .single 1
    fwdLabel := .fromTo (max (py_or_int second_line l1 + 1) 1)
                        (max (py_or_int second_line l1 + 25) 1)
    content := content0 }

/-- Method `GitHubLinesView.set_labels`: backward label collapses to `view.format(1)`
when the backward range is degenerate, forward label is always a range. -/
def set_labels (s : FullViewState) (range_backward range_forward : Int × Int) :
    FullViewState :=
  { s with
    backLabel := if range_backward.1 = range_backward.2 then .single 1
                 else .fromTo range_backward.1 range_backward.2
    fwdLabel := .fromTo range_forward.1 range_forward.2 }

/-- Method `GitHubLinesButton.callback`: enable revert, advance `(l1, l2)` via
`get_next_lines`, re-fetch (the `fetched` parameter), and only when the fetch
is truthy update both labels and edit the message.  The returned `Bool`
records whether `interaction.message.edit` ran. -/
def lines_button_callback (forward : Bool) (fetched : Option String)
    (s : FullViewState) : FullViewState × Bool :=
  let s1 := { s with revertDisabled := false }
  let r := get_next_lines s1.l1 s1.l2 forward
  let s2 := { s1 with l1 := r.1, l2 := some r.2 }
  if py_truthy_str fetched then
    let l_b := get_next_lines s2.l1 s2.l2 false
    let l_f := get_next_lines s2.l1 s2.l2 true
    let s3 := set_labels s2 l_b l_f
    ({ s3 with content := some ("`#L" ++ toString r.1 ++
        (if r.2 ≠ 1 then "-L" ++ toString r.2 else "") ++ "`\n" ++ fetched.getD "") },
     true)
  else
    (s2, false)

/-- Method `_GitHubLinesBackToOriginalButton.callback`: disable itself, restore
`(l1, l2)` from the originals, recompute both labels from the originals, and
edit the message with the re-fetched original text. -/
def revert_callback (fetched_original : Option String) (s : FullViewState) :
    FullViewState :=
  let s1 := { s with revertDisabled := true, l1 := s.original_l1, l2 := s.original_l2 }
  let s2 := set_labels s1 (get_next_lines s.original_l1 s.original_l2 false)
                          (get_next_lines s.original_l1 s.original_l2 true)
  { s2 with content := fetched_original }

/-- A user interaction with the view: a forward/backward button press or a
revert press, each carrying the text that the embedded re-fetch returned. -/
inductive ViewEvent where
  | step (forward : Bool) (fetched : Option String)
  | revert (fetched : Option String)

/-- Dispatch one event to the corresponding callback. -/
def apply_event (e : ViewEvent) (s : FullViewState) : FullViewState :=
  match e with
  | .step f t => (lines_button_callback f t s).1
  | .revert t => revert_callback t s

/-- A whole interaction history applied in order. -/
def run_events (evs : List ViewEvent) (s : FullViewState) : FullViewState :=
  evs.foldl (fun s e => apply_event e s) s

theorem apply_event_preserves_originals (e : ViewEvent) (s : FullViewState) :
    (apply_event e s).original_l1 = s.original_l1 ∧
    (apply_event e s).original_l2 = s.original_l2 := by
  cases e with
  | step f t =>
      simp only [apply_event, lines_button_callback]
      split <;> simp [set_labels]
  | revert t => simp [apply_event, revert_callback, set_labels]

theorem run_events_preserves_originals (evs : List ViewEvent) (s : FullViewState) :
    (run_events evs s).original_l1 = s.original_l1 ∧
    (run_events evs s).original_l2 = s.original_l2 := by
  induction evs generalizing s with
  | nil => simp [run_events]
  | cons e evs ih =>
      have h := apply_event_preserves_originals e s
      have h' := ih (apply_event e s)
      simp only [run_events, List.foldl_cons] at h' ⊢
      exact ⟨h'.1.trans h.1, h'.2.trans h.2⟩

/-- C2: after any interaction history, pressing the revert button restores
`(l1, l2)` to exactly the originals captured at construction and disables the
revert button; any subsequent forward/backward press enables it again. -/
theorem revert_restores_originals (first_line : Int) (second_line : Option Int)
    (content0 : Option String) (evs : List ViewEvent) (t : Option String) :
    (revert_callback t (run_events evs (init_view first_line second_line content0))).l1 =
      (init_view first_line second_line content0).original_l1 ∧
    (revert_callback t (run_events evs (init_view first_line second_line content0))).l2 =
      (init_view first_line second_line content0).original_l2 ∧
    (revert_callback t (run_events evs (init_view first_line second_line content0))).revertDisabled = true ∧
    ∀ (f : Bool) (t' : Option String),
      ((lines_button_callback f t'
        (revert_callback t (run_events evs (init_view first_line second_line content0)))).1).revertDisabled = false := by
  have h := run_events_preserves_originals evs (init_view first_line second_line content0)
  refine ⟨?_, ?_, ?_, ?_⟩
  · simp [revert_callback, set_labels]; exact h.1
  · simp [revert_callback, set_labels]; exact h.2
  · simp [revert_callback, set_labels]
  · intro f t'
    simp only [lines_button_callback]
    split <;> simp [set_labels]

/-- C4: in a forward/backward callback the message-edit and label-update
branch runs exactly when the re-fetched text is truthy (non-`None` and
non-empty); on a `None` or empty fetch nothing is edited: content and labels
are unchanged and no error is raised (the model is a total function). -/
theorem empty_refetch_no_edit (forward : Bool) (fetched : Option String)
    (s : FullViewState) :
    ((lines_button_callback forward fetched s).2 = true ↔
      ∃ t, fetched = some t ∧ t ≠ "") ∧
    ((fetched = none ∨ fetched = some "") →
      (lines_button_callback forward fetched s).2 = false ∧
      ((lines_button_callback forward fetched s).1).content = s.content ∧
      ((lines_button_callback forward fetched s).1).backLabel = s.backLabel ∧
      ((lines_button_callback forward fetched s).1).fwdLabel = s.fwdLabel) := by
  constructor
  · simp only [lines_button_callback]
    split
    · rename_i htr
      simp only [py_truthy_str] at htr
      cases fetched with
      | none => simp at htr
      | some t =>
          simp at htr
          simp [htr]
    · rename_i htr
      simp only [py_truthy_str] at htr
      cases fetched with
      | none => simp
      | some t =>
          simp at htr
          simp [htr]
  · intro hor
    have hfalse : py_truthy_str fetched = false := by
      rcases hor with h | h <;> simp [h, py_truthy_str]
    simp [lines_button_callback, hfalse]

theorem empty_refetch_no_edit_witness :
    (lines_button_callback true none (init_view 10 (some 20) (some "orig"))).2 = false ∧
    ((lines_button_callback true none (init_view 10 (some 20) (some "orig"))).1).content = some "orig" := by
  have h := (empty_refetch_no_edit true none (init_view 10 (some 20) (some "orig"))).2 (Or.inl rfl)
  exact ⟨h.1, by rw [h.2.1]; simp [init_view]⟩

/-! ## Round-trip behaviour of the pagination step (C3)

The claim asserts that `n` forward presses followed by `n` backward presses
return the original window *only if* no clamping to the floor of 1 occurred.
This fails: from `(1, 10)` one forward press gives `(11, 35)` and one backward
press gives `(max (11-25) 1, max (11-1) 1) = (1, 10)` — the original window —
even though the backward step clamped `-14` up to `1`. -/

theorem roundtrip_clamp_counterexample :
    ¬ (iterSteps false 1 (iterSteps true 1 ((1 : Int), some (10 : Int))) =
         ((1 : Int), some (10 : Int)) →
       (clampFreeSteps true 1 ((1 : Int), some (10 : Int)) = true ∧
        clampFreeSteps false 1 (iterSteps true 1 ((1 : Int), some (10 : Int))) = true)) := by
  decide

theorem iter_forward_full (n : Nat) : ∀ l1 : Int, 1 ≤ l1 →
    iterSteps true n (l1, some (l1 + 24)) = (l1 + 25 * n, some (l1 + 24 + 25 * n)) ∧
    clampFreeSteps true n (l1, some (l1 + 24)) = true := by
  induction n with
  | zero =>
      intro l1 h
      refine ⟨?_, by simp [clampFreeSteps]⟩
      simp [iterSteps]
  | succ n ih =>
      intro l1 h
      have hstep : stepLines true (l1, some (l1 + 24)) = (l1 + 25, some (l1 + 49)) := by
        simp [stepLines, get_next_lines, get_next_lines_raw]
        omega
      have hcl : stepClamps true (l1, some (l1 + 24)) = false := by
        simp [stepClamps, get_next_lines_raw]
        omega
      have h49 : l1 + 49 = (l1 + 25) + 24 := by omega
      have ih' := ih (l1 + 25) (by omega)
      constructor
      · show iterSteps true n (stepLines true (l1, some (l1 + 24))) = _
        rw [hstep, h49, ih'.1]
        simp only [Prod.mk.injEq, Option.some.injEq]
        constructor <;> push_cast [] <;> ring
      · show (!stepClamps true (l1, some (l1 + 24)) &&
              clampFreeSteps true n (stepLines true (l1, some (l1 + 24)))) = true
        rw [hstep, hcl, h49, ih'.2]
        rfl

theorem iter_backward_full (n : Nat) : ∀ a : Int, 1 ≤ a →
    iterSteps false n (a + 25 * n, some (a + 24 + 25 * n)) = (a, some (a + 24)) ∧
    clampFreeSteps false n (a + 25 * n, some (a + 24 + 25 * n)) = true := by
  induction n with
  | zero =>
      intro a ha
      refine ⟨?_, by simp [clampFreeSteps]⟩
      simp [iterSteps]
  | succ n ih =>
      intro a ha
      have hstep : stepLines false (a + 25 * ((n : Nat) + 1 : Nat), some (a + 24 + 25 * ((n : Nat) + 1 : Nat))) =
          (a + 25 * n, some (a + 24 + 25 * n)) := by
        simp [stepLines, get_next_lines, get_next_lines_raw]
        omega
      have hcl : stepClamps false (a + 25 * ((n : Nat) + 1 : Nat), some (a + 24 + 25 * ((n : Nat) + 1 : Nat))) = false := by
        simp [stepClamps, get_next_lines_raw]
        omega
      have ih' := ih a ha
      constructor
      · show iterSteps false n (stepLines false _) = _
        rw [hstep, ih'.1]
      · show (!stepClamps false _ && clampFreeSteps false n (stepLines false _)) = true
        rw [hstep, hcl, ih'.2]
        rfl

/-- C3 (amended): the claim's "only if" direction fails (see the
counterexample); what holds is that for every full 25-line starting window —
`l1 ≥ 1` and `l2 = l1 + 24` — `n` forward presses followed by `n` backward
presses return exactly the original window, and no clamping to the floor of 1
occurs in any of the `2n` steps. -/
theorem roundtrip_full_window (l1 : Int) (h : 1 ≤ l1) (n : Nat) :
    iterSteps false n (iterSteps true n (l1, some (l1 + 24))) = (l1, some (l1 + 24)) ∧
    clampFreeSteps true n (l1, some (l1 + 24)) = true ∧
    clampFreeSteps false n (iterSteps true n (l1, some (l1 + 24))) = true := by
  have hf := iter_forward_full n l1 h
  have hb := iter_backward_full n l1 h
  refine ⟨?_, hf.2, ?_⟩
  · rw [hf.1]
    exact hb.1
  · rw [hf.1]
    exact hb.2

theorem roundtrip_full_window_witness :
    iterSteps false 2 (iterSteps true 2 ((2 : Int), some 26)) = ((2 : Int), some 26) ∧
    clampFreeSteps true 2 ((2 : Int), some 26) = true := by
  have h := roundtrip_full_window 2 (by decide) 2
  constructor
  · have := h.1
    simpa using this
  · have := h.2.1
    simpa using this

/-! ## The `github_cached` decorator (`lib/api/github.py`, lines 19-30)

    def github_cached(func):
        @functools.wraps(func)
        async def wrapper(*args, **kwargs):
            cache_key = f'{id(func)}:{args[1] if args else next(iter(kwargs))}'
            if cached := GitHubAPI.github_object_cache.get(cache_key):
                return cached
            result = await func(*args, **kwargs)
            if isinstance(result, (dict, list)):
                GitHubAPI.github_object_cache[cache_key] = result
            return result
        return wrapper

Python runtime values are embedded as `PyVal`; the payloads of dicts and
lists are irrelevant to the claims and kept as opaque string data. -/

/-- A Python runtime value, as far as the cache logic can distinguish them. -/
inductive PyVal where
  | pynone
  | pybool (b : Bool)
  | pyint (n : Int)
  | pystr (s : String)
  | pydict (entries : List (String × String))
  | pylist (items : List String)
  deriving DecidableEq

/-- Check `isinstance(result, (dict, list))`. -/
def is_container : PyVal → Bool
  | .pydict _ => true
  | .pylist _ => true
  | _ => false

/-- Python truthiness of a `PyVal`. -/
def py_truthy : PyVal → Bool
  | .pynone => false
  | .pybool b => b
  | .pyint n => decide (n ≠ 0)
  | .pystr s => decide (s ≠ "")
  | .pydict e => !e.isEmpty
  | .pylist l => !l.isEmpty

/-- Interpolation `f'{value}'` — the textual form interpolated into the cache key.  Cached
methods are keyed by user/org/repo/gist-id strings in practice; the container
renderings are stand-ins. -/
def py_str : PyVal → String
  | .pynone => "None"
  | .pybool b => if b then "True" else "False"
  | .pyint n => toString n
  | .pystr s => s
  | .pydict _ => "dict"
  | .pylist _ => "list"

/-- The in-process object cache, a string-keyed association list. -/
abbrev GhCache := List (String × PyVal)

/-- Lookup `cache.get(key)`. -/
def cache_get (c : GhCache) (k : String) : Option PyVal :=
  (c.find? (fun p => p.1 = k)).map Prod.snd

/-- Assignment `cache[key] = value` — the key-value pair is overwritten or appended. -/
def cache_set (c : GhCache) (k : String) (v : PyVal) : GhCache :=
  if (c.find? (fun p => p.1 = k)).isSome then
    c.map (fun p => if p.1 = k then (k, v) else p)
  else
    c ++ [(k, v)]

/-- The body of `wrapper` for a fixed cache key: return a truthy cached value,
otherwise take `result` (the awaited `func(*args, **kwargs)`, an oracle here)
and insert it only when it is a dict or a list.  Returns the call's value and
the cache afterwards. -/
def github_cached_call (cache : GhCache) (cache_key : String) (result : PyVal) :
    PyVal × GhCache :=
  match cache_get cache cache_key with
  | some cached =>
      if py_truthy cached then (cached, cache)
      else (result, if is_container result then cache_set cache cache_key result else cache)
  | none =>
      (result, if is_container result then cache_set cache cache_key result else cache)

/-- Expression `cache_key = f'{id(func)}:{args[1] if args else next(iter(kwargs))}'`.
`none` models the expression raising (`IndexError` from `args[1]` or
`StopIteration` from `next(iter({}))`). -/
def cache_key (func_id : Nat) (args : List PyVal) (kwargs : List (String × PyVal)) :
    Option String :=
  if args.isEmpty then
    match kwargs with
    | (k, _) :: _ => some (toString func_id ++ ":" ++ k)
    | [] => none
  else
    match args.get? 1 with
    | some v => some (toString func_id ++ ":" ++ py_str v)
    | none => none

theorem cache_set_mem (c : GhCache) (k : String) (v : PyVal) :
    ∀ p ∈ cache_set c k v, p ∈ c ∨ p = (k, v) := by
  intro p hp
  simp only [cache_set] at hp
  split at hp
  · rcases List.mem_map.mp hp with ⟨q, hq, hqe⟩
    by_cases hk : q.1 = k
    · rw [if_pos hk] at hqe
      exact Or.inr hqe.symm
    · rw [if_neg hk] at hqe
      exact Or.inl (hqe ▸ hq)
  · rcases List.mem_append.mp hp with h | h
    · exact Or.inl h
    · exact Or.inr (List.mem_singleton.mp h)

theorem github_cached_call_snd (cache : GhCache) (k : String) (result : PyVal) :
    (github_cached_call cache k result).2 = cache ∨
    (is_container result = true ∧
     (github_cached_call cache k result).2 = cache_set cache k result) := by
  simp only [github_cached_call]
  cases cache_get cache k with
  | none => by_cases hr : is_container result <;> simp [hr]
  | some cached =>
      by_cases ht : py_truthy cached <;> by_cases hr : is_container result <;> simp [ht, hr]

/-- C5: the `github_cached` wrapper inserts its result into
`github_object_cache` only when the result is a dict or a list; for a `None`
or any other non-container result the cache is left unchanged, so a cache all
of whose values are containers still only holds containers after any call. -/
theorem github_cached_inserts_only_containers (cache : GhCache) (k : String)
    (result : PyVal) (hinv : ∀ p ∈ cache, is_container p.2 = true) :
    (is_container result = false → (github_cached_call cache k result).2 = cache) ∧
    (∀ p ∈ (github_cached_call cache k result).2, is_container p.2 = true) := by
  constructor
  · intro hr
    rcases github_cached_call_snd cache k result with h | ⟨hc, _⟩
    · exact h
    · rw [hr] at hc
      cases hc
  · intro p hp
    rcases github_cached_call_snd cache k result with h | ⟨hc, h⟩
    · rw [h] at hp
      exact hinv p hp
    · rw [h] at hp
      rcases cache_set_mem cache k result p hp with h' | h'
      · exact hinv p h'
      · subst h'
        exact hc

theorem github_cached_inserts_only_containers_witness :
    (github_cached_call [("a", PyVal.pydict [])] "k" PyVal.pynone).2 =
      [("a", PyVal.pydict [])] :=
  (github_cached_inserts_only_containers [("a", PyVal.pydict [])] "k" PyVal.pynone
    (by decide)).1 rfl

/-- C6 counterexample: for a bound-method call that passes the first
non-`self` argument as a keyword, `args` is `(self,)` — non-empty — so the
key expression evaluates `args[1]` and raises `IndexError`; no composite of
the function identity and the argument's value is ever produced. -/
theorem cache_key_keyword_counterexample :
    ¬ (cache_key 7 [PyVal.pynone] [("user", PyVal.pystr "octocat")] =
        some (toString 7 ++ ":" ++ py_str (PyVal.pystr "octocat"))) := by
  simp [cache_key]

/-- C6 (amended): the cache key is a composite of the function identity and
the *second positional* argument (the first after `self`), whatever the
keyword arguments; a call that passes the first non-`self` argument as a
keyword raises `IndexError` while computing the key (modelled as `none`); the
keyword branch is reachable only with no positional arguments at all, and it
uses the first keyword's *name*, not its value. -/
theorem cache_key_spec (func_id : Nat) (self v : PyVal) (kwname : String)
    (kwargs : List (String × PyVal)) :
    cache_key func_id [self, v] kwargs = some (toString func_id ++ ":" ++ py_str v) ∧
    cache_key func_id [self] ((kwname, v) :: kwargs) = none ∧
    cache_key func_id [] ((kwname, v) :: kwargs) =
      some (toString func_id ++ ":" ++ kwname) := by
  refine ⟨?_, ?_, ?_⟩ <;> simp [cache_key]

/-! ## `get_repo_zip` (`lib/api/github.py`, lines 191-208) and the
lines-of-code command (`cogs/github/other/loc.py`)

    if '/' not in repo or repo.count('/') > 1:
        return None
    res = await self.session.get(...)
    if res.status == 200:
        try:
            await res.content.readexactly(size_threshold)
        except asyncio.IncompleteReadError as read:
            return read.partial
        else:
            return False
    return None

`readexactly(n)` succeeds exactly when the stream holds at least `n` bytes;
otherwise it raises `IncompleteReadError` whose `.partial` attribute is the
bytes actually read, i.e. the whole body. -/

/-- The `Optional[bool | bytes]` result of `get_repo_zip`: `None`, `False`
(archive at least as large as the threshold) or the full zip bytes. -/
inductive ZipFetch where
  | noRes
  | tooBig
  | got (content : List Nat)
  deriving DecidableEq

/-- Count `repo.count('/')`. -/
def slash_count (s : String) : Nat := s.toList.count '/'

/-- Method `GitHubAPI.get_repo_zip`, with the HTTP response (status and body bytes)
as oracle inputs. -/
def get_repo_zip (repo : String) (status : Nat) (content : List Nat)
    (size_threshold : Nat) : ZipFetch :=
  if ¬ ('/' ∈ repo.toList) ∨ 1 < slash_count repo then .noRes
  else if status = 200 then
    if size_threshold ≤ content.length then .tooBig
    else .got content
  else .noRes

/-- Truthiness of the `Optional[bool | bytes]` value (`if not files`):
only a non-empty byte string is truthy. -/
def zip_truthy : ZipFetch → Bool
  | .got c => !c.isEmpty
  | _ => false

/-- Method `LinesOfCode.process_repo`: a cache hit short-circuits; a falsy zip result
returns `None` before any extraction; otherwise the external `cloc` run (the
`cloc_output` oracle: `none` models `CalledProcessError`) decides the result.
The returned `Bool` records whether the cloc line-count subprocess ran. -/
def process_repo (α : Type) (cached : Option (α × Nat)) (files : ZipFetch)
    (cloc_output : Option α) (c_removed : Nat) : Option (α × Nat) × Bool :=
  match cached with
  | some c => (some c, false)
  | none =>
      if zip_truthy files then
        match cloc_output with
        | some out => (some (out, c_removed), true)
        | none => (none, true)
      else (none, false)

/-- The user-visible outcome of the `loc` command. -/
inductive LocReply (α : Type) where
  | nonexistentRepo
  | fileTooBig
  | stats (out : α) (count : Nat)
  deriving DecidableEq

/-- Command `LinesOfCode.lines_of_code_command`: nonexistent repo, `file_too_big`
when `process_repo` yields nothing, otherwise the stats embed. -/
def lines_of_code_command (α : Type) (repo_data : Option Unit)
    (processed : Option (α × Nat)) : LocReply α :=
  match repo_data with
  | none => .nonexistentRepo
  | some _ =>
      match processed with
      | none => .fileTooBig
      | some (out, count) => .stats out count

/-- C7: a zipped snapshot at least as large as the size threshold makes
`get_repo_zip` return `False`, never partial bytes; on a cache miss
`process_repo` then yields nothing without running the line counter, and the
command replies with the file-too-big error. -/
theorem big_zip_file_too_big (α : Type) (repo : String) (content : List Nat)
    (thr : Nat) (h1 : slash_count repo = 1) (h2 : thr ≤ content.length)
    (cloc_output : Option α) (c_removed : Nat) :
    get_repo_zip repo 200 content thr = .tooBig ∧
    process_repo α none (get_repo_zip repo 200 content thr) cloc_output c_removed =
      (none, false) ∧
    lines_of_code_command α (some ())
      (process_repo α none (get_repo_zip repo 200 content thr) cloc_output c_removed).1 =
      .fileTooBig := by
  have hmem : '/' ∈ repo.toList := by
    by_contra hnot
    have h0 : repo.toList.count '/' = 0 := List.count_eq_zero.mpr hnot
    rw [slash_count] at h1
    omega
  have hc : ¬ (¬ ('/' ∈ repo.toList) ∨ 1 < slash_count repo) := by
    push_neg
    exact ⟨hmem, by omega⟩
  have hzip : get_repo_zip repo 200 content thr = .tooBig := by
    simp [get_repo_zip, hc, h2]
    exact ⟨hmem, by omega⟩
  refine ⟨hzip, ?_, ?_⟩
  · rw [hzip]
    rfl
  · rw [hzip]
    rfl

theorem big_zip_file_too_big_witness :
    get_repo_zip "a/b" 200 [0, 0, 0] 2 = ZipFetch.tooBig ∧
    lines_of_code_command Nat (some ())
      (process_repo Nat none (get_repo_zip "a/b" 200 [0, 0, 0] 2) none 0).1 =
      LocReply.fileTooBig := by
  have h := big_zip_file_too_big Nat "a/b" [0, 0, 0] 2 (by decide) (by decide) none 0
  exact ⟨h.1, h.2.2⟩

/-! ## `UserCollection` (`lib/structs/db/user_collection.py`)

The Mongo collection is embedded as an association list from `_id` to the
record's ordinary fields; `find_one({'_id': _id})` returns the document with
its `_id` key in front, which is what the Python code's `field in query` and
`len(query)` inspect.  The live GitHub lookups used by `setitem` and the
configured locale list are oracle parameters.  One piece of MongoDB
behaviour is part of the model: `_id` is immutable, so an update whose
`$unset` path is `_id` is rejected server-side with a WriteError
(ImmutableField, code 66) that the driver raises at the awaited
`update_one`; `delitem` therefore returns `Option (Bool × Store)` with
`none` standing for that exception propagating to the caller. -/

/-- The ordinary fields of one stored record (without the `_id` key). -/
abbrev Fields := List (String × String)

/-- The user collection: `_id → fields`. -/
abbrev Store := List (String × Fields)

/-- Query `find_one({'_id': _id})`, projected to the stored fields. -/
def find_one (st : Store) (i : String) : Option Fields :=
  (st.find? (fun r => r.1 = i)).map Prod.snd

/-- The document dict as Python sees it: the `_id` key plus the fields. -/
def doc_of (i : String) (fs : Fields) : Fields := ("_id", i) :: fs

/-- Update `{"$set": {k: v}}` applied to a field list: overwrite or append. -/
def set_field (fs : Fields) (k v : String) : Fields :=
  if (fs.find? (fun p => p.1 = k)).isSome then
    fs.map (fun p => if p.1 = k then (k, v) else p)
  else fs ++ [(k, v)]

/-- Update `update_one({'_id': i}, ...)` applied pointwise to the matching record. -/
def store_update (st : Store) (i : String) (f : Fields → Fields) : Store :=
  st.map (fun r => if r.1 = i then (r.1, f r.2) else r)

/-- Deletion `find_one_and_delete({'_id': i})`'s effect on the store. -/
def store_delete (st : Store) (i : String) : Store :=
  st.filter (fun r => ¬ r.1 = i)

/-- The store after `delitem` has found the record and seen an *ordinary*
field in the document: `$unset` the field, then delete the whole record when
the local dict holds exactly one key after `del query[field]`.  This function
is only reached with `field ≠ '_id'`: for `field = '_id'` the `update_one`
call raises before any of this runs (see `delitem`). -/
def delitem_store (st : Store) (i field : String) (fs : Fields) : Store :=
  let st1 := store_update st i (fun fss => fss.filter (fun p => ¬ p.1 = field))
  if ((doc_of i fs).filter (fun p => ¬ p.1 = field)).length = 1 then
    store_delete st1 i
  else st1

/-- Method `UserCollection.delitem`:

    query = await self.find_one({"_id": _id})
    if query is not None and field in query:
        await self.update_one(query, {"$unset": {field: ""}})
        del query[field]
        if len(query) == 1:
            await self.find_one_and_delete({"_id": _id})
        return True
    return False

MongoDB rejects any update that modifies the immutable `_id` path with a
WriteError (ImmutableField, code 66), raised by the driver at the awaited
`update_one`.  The `none` result models that exception propagating out of
`delitem` — before `del query[field]`, the `len(query) == 1` check or the
record deletion can run — so the call returns neither `True` nor `False` and
the store is unchanged. -/
def delitem (st : Store) (i field : String) : Option (Bool × Store) :=
  match find_one st i with
  | some fs =>
      if (doc_of i fs).any (fun p => p.1 = field) then
        if field = "_id" then none
        else some (true, delitem_store st i field fs)
      else some (false, st)
  | none => some (false, st)

/-- The `valid` flag computed by `UserCollection.setitem`: `user`/`repo`/`org`
need a non-`None` live lookup, `locale` must be a configured locale name,
anything else is accepted. -/
def setitem_valid (item value : String)
    (user_lookup repo_lookup org_lookup : Option Unit)
    (locale_names : List String) : Bool :=
  if item = "user" ∨ item = "repo" ∨ item = "org" then
    (if item = "user" then user_lookup
     else if item = "repo" then repo_lookup
     else org_lookup).isSome
  else if item = "locale" then locale_names.contains value
  else true

/-- Method `UserCollection.setitem`: on success update the existing record
(`$set`) or insert `{"_id": _id, item: value}`; on validation failure return
`False` leaving the store untouched. -/
def setitem (st : Store) (i item value : String)
    (user_lookup repo_lookup org_lookup : Option Unit)
    (locale_names : List String) : Bool × Store :=
  if setitem_valid item value user_lookup repo_lookup org_lookup locale_names then
    match find_one st i with
    | some _ => (true, store_update st i (fun fs => set_field fs item value))
    | none => (true, st ++ [(i, [(item, value)])])
  else (false, st)

theorem setitem_fst (st : Store) (i item value : String)
    (uL rL oL : Option Unit) (locs : List String) :
    (setitem st i item value uL rL oL locs).1 = setitem_valid item value uL rL oL locs := by
  cases hv : setitem_valid item value uL rL oL locs with
  | false => simp [setitem, hv]
  | true =>
      simp only [setitem, hv, if_true]
      cases hf : find_one st i <;> simp

theorem setitem_valid_iff (item value : String) (uL rL oL : Option Unit)
    (locs : List String) :
    setitem_valid item value uL rL oL locs = true ↔
      ((item = "user" → uL.isSome = true) ∧
       (item = "repo" → rL.isSome = true) ∧
       (item = "org" → oL.isSome = true) ∧
       (item = "locale" → locs.contains value = true)) := by
  by_cases hu : item = "user"
  · subst hu; simp [setitem_valid]
  · by_cases hr : item = "repo"
    · subst hr; simp [setitem_valid]
    · by_cases ho : item = "org"
      · subst ho; simp [setitem_valid]
      · by_cases hl : item = "locale"
        · subst hl; simp [setitem_valid, hu, hr, ho]
        · simp [setitem_valid, hu, hr, ho, hl]

/-- C8: `setitem` accepts a write and returns `True` iff validation passes —
`user`/`repo`/`org` need a non-`None` live lookup, `locale` must be among the
configured locale names, any other field is always accepted — and on failure
it returns `False` with the store left unchanged. -/
theorem setitem_spec (st : Store) (i item value : String)
    (uL rL oL : Option Unit) (locs : List String) :
    ((setitem st i item value uL rL oL locs).1 = true ↔
      ((item = "user" → uL.isSome = true) ∧
       (item = "repo" → rL.isSome = true) ∧
       (item = "org" → oL.isSome = true) ∧
       (item = "locale" → locs.contains value = true))) ∧
    ((setitem st i item value uL rL oL locs).1 = false →
      (setitem st i item value uL rL oL locs).2 = st) := by
  constructor
  · rw [setitem_fst]
    exact setitem_valid_iff item value uL rL oL locs
  · intro hfalse
    rw [setitem_fst] at hfalse
    simp [setitem, hfalse]

theorem setitem_spec_witness :
    (setitem [] "5" "locale" "en" none none none ["en"]).1 = true ∧
    (setitem [] "5" "user" "x" none none none []).2 = [] := by
  constructor
  · exact (setitem_spec [] "5" "locale" "en" none none none ["en"]).1.mpr (by decide)
  · exact (setitem_spec [] "5" "user" "x" none none none []).2 (by decide)

theorem find_one_store_update (st : Store) (i : String) (f : Fields → Fields) :
    find_one (store_update st i f) i = (find_one st i).map f := by
  induction st with
  | nil => rfl
  | cons r st ih =>
      simp only [store_update, List.map_cons]
      by_cases h : r.1 = i
      · rw [if_pos h]
        simp only [find_one]
        rw [List.find?_cons_of_pos _ (by simp [h]), List.find?_cons_of_pos _ (by simp [h])]
        simp
      · rw [if_neg h]
        simp only [find_one]
        rw [List.find?_cons_of_neg _ (by simp [h]), List.find?_cons_of_neg _ (by simp [h])]
        simpa [find_one, store_update] using ih

theorem find_one_store_delete (st : Store) (i : String) :
    find_one (store_delete st i) i = none := by
  have h : (store_delete st i).find? (fun r => r.1 = i) = none := by
    rw [List.find?_eq_none]
    intro x hx
    have hne := List.of_mem_filter hx
    simp at hne ⊢
    exact hne
  simp [find_one, h]

/-- C10 counterexample: with the store holding the single record
`{_id: "5", user: "a"}`, a record for the id exists and the fetched document
contains the key `_id`, so the claim predicts `delitem("5", "_id")` returns
`True` and unsets the field; instead `update_one` raises a MongoDB WriteError
on the immutable `_id` path, so the call raises — returning neither `True`
nor `False` (modelled as `none`) — before `del query[field]` or any record
deletion can run. -/
theorem delitem_id_counterexample :
    find_one [("5", [("user", "a")])] "5" = some [("user", "a")] ∧
    (doc_of "5" [("user", "a")]).any (fun p => p.1 = "_id") = true ∧
    delitem [("5", [("user", "a")])] "5" "_id" = none := by
  decide

/-- C10 (amended): for every field other than `_id` itself, `delitem` returns
`True` iff a record for the id exists and contains the field; in that case
the field is unset, and the whole record is deleted exactly when the field
was the last one besides `_id`; otherwise it returns `False` and the store is
unchanged.  (For `field = '_id'` the `$unset` of the immutable `_id` path
makes `update_one` raise a WriteError, so the call raises instead of
returning — see the counterexample.) -/
theorem delitem_spec (st : Store) (i field : String) (hfield : field ≠ "_id") :
    (delitem st i field).isSome = true ∧
    ((delitem st i field).map Prod.fst = some true ↔
      ∃ fs, find_one st i = some fs ∧ fs.any (fun p => p.1 = field) = true) ∧
    ((delitem st i field).map Prod.fst = some false →
      delitem st i field = some (false, st)) ∧
    (∀ fs, find_one st i = some fs → fs.any (fun p => p.1 = field) = true →
      ∃ st', delitem st i field = some (true, st') ∧
        find_one st' i =
          (if fs.filter (fun p => ¬ p.1 = field) = [] then none
           else some (fs.filter (fun p => ¬ p.1 = field)))) := by
  have hfs' : ¬ ("_id" = field) := fun h => hfield h.symm
  cases hf : find_one st i with
  | none =>
      refine ⟨?_, ?_, ?_, ?_⟩
      · simp [delitem, hf]
      · simp [delitem, hf]
      · intro _
        simp [delitem, hf]
      · intro fs hfs
        cases hfs
  | some fs =>
      have hany : (doc_of i fs).any (fun p => p.1 = field) =
          fs.any (fun p => p.1 = field) := by
        simp [doc_of, hfs']
      have hdoc : (doc_of i fs).filter (fun p => ¬ p.1 = field) =
          ("_id", i) :: fs.filter (fun p => ¬ p.1 = field) := by
        simp [doc_of, List.filter_cons, hfs']
      cases ha : fs.any (fun p => p.1 = field) with
      | false =>
          refine ⟨?_, ?_, ?_, ?_⟩
          · simp [delitem, hf, hany, ha]
          · rw [show delitem st i field = some (false, st) from by
              simp [delitem, hf, hany, ha]]
            constructor
            · intro h
              simp at h
            · rintro ⟨fs0, hfs0, hany0⟩
              injection hfs0 with e
              subst e
              rw [hany0] at ha
              cases ha
          · intro _
            simp [delitem, hf, hany, ha]
          · intro fs0 hfs0 hany0
            injection hfs0 with e
            subst e
            rw [hany0] at ha
            cases ha
      | true =>
          have hdel : delitem st i field = some (true, delitem_store st i field fs) := by
            simp [delitem, hf, hany, ha, hfield]
          refine ⟨?_, ?_, ?_, ?_⟩
          · rw [hdel]
            rfl
          · rw [hdel]
            constructor
            · intro _
              exact ⟨fs, rfl, ha⟩
            · intro _
              rfl
          · intro hfalse
            rw [hdel] at hfalse
            simp at hfalse
          · intro fs0 hfs0 hany0
            injection hfs0 with e
            subst e
            refine ⟨delitem_store st i field fs, hdel, ?_⟩
            by_cases hemp : fs.filter (fun p => ¬ p.1 = field) = []
            · have hlen1 : ((doc_of i fs).filter (fun p => ¬ p.1 = field)).length = 1 := by
                rw [hdoc, hemp]
                rfl
              simp only [decide_not] at hlen1 hemp ⊢
              simp [delitem_store, hlen1, find_one_store_delete, hemp]
            · have hlen0 : (fs.filter (fun p => ¬ p.1 = field)).length ≠ 0 := by
                intro h0
                exact hemp (List.length_eq_zero.mp h0)
              have hlen1 : ((doc_of i fs).filter (fun p => ¬ p.1 = field)).length ≠ 1 := by
                rw [hdoc]
                simp only [List.length_cons]
                omega
              simp only [decide_not] at hlen1 hemp ⊢
              simp [delitem_store, hlen1, find_one_store_update, hf, hemp]

theorem delitem_spec_witness :
    (delitem [("5", [("user", "a")])] "5" "user").map Prod.fst = some true ∧
    ∃ st', delitem [("5", [("user", "a")])] "5" "user" = some (true, st') ∧
      find_one st' "5" = none := by
  have h := delitem_spec [("5", [("user", "a")])] "5" "user" (by decide)
  constructor
  · exact h.2.1.mpr ⟨[("user", "a")], rfl, by decide⟩
  · obtain ⟨st', heq, hfo⟩ := h.2.2.2 [("user", "a")] rfl (by decide)
    refine ⟨st', heq, ?_⟩
    rw [hfo]
    decide

/-! ## List truncation (`cogs/github/base/user.py` lines 119-131,
`cogs/rust/crates.py` lines 59-63)

`user repos` renders `repos[:15]` and sets the "+N more" footer only when
`(c := len(repos)) > 15` (an empty list short-circuits to an error reply);
`crates info` joins `owners[:5]` and appends a `more_authors` suffix only
when `len(owners) > 5`. -/

/-- Command `User.user_repos_command`'s rendered list and footer count. -/
def user_repos_render (repos : List String) : Option (List String × Option Nat) :=
  if repos.isEmpty then none
  else some (repos.take 15,
    if 15 < repos.length then some (repos.length - 15) else none)

/-- Command `Crates.crate_info_command`'s rendered owner list and `more_authors`
count. -/
def crate_owners_listing (owners : List String) : List String × Option Nat :=
  (owners.take 5, if 5 < owners.length then some (owners.length - 5) else none)

/-- C9: with `N = len(repos) > 15` exactly the first 15 repositories are
rendered and the footer shows `N - 15`; with `N ≤ 15` all `N` are rendered
and no footer is set; analogously the crate info command lists at most 5
owners with a `+N-5 more` suffix only when `N > 5`. -/
theorem truncation_thresholds (repos owners : List String) (hne : repos ≠ []) :
    ∃ shown footer, user_repos_render repos = some (shown, footer) ∧
      (15 < repos.length → shown.length = 15 ∧ shown = repos.take 15 ∧
        footer = some (repos.length - 15)) ∧
      (repos.length ≤ 15 → shown = repos ∧ footer = none) ∧
      (5 < owners.length → (crate_owners_listing owners).1.length = 5 ∧
        (crate_owners_listing owners).1 = owners.take 5 ∧
        (crate_owners_listing owners).2 = some (owners.length - 5)) ∧
      (owners.length ≤ 5 → (crate_owners_listing owners).1 = owners ∧
        (crate_owners_listing owners).2 = none) := by
  have hne' : repos.isEmpty = false := by
    simpa [List.isEmpty_iff] using hne
  refine ⟨repos.take 15,
    if 15 < repos.length then some (repos.length - 15) else none, ?_, ?_, ?_, ?_, ?_⟩
  · simp [user_repos_render, hne']
  · intro h
    refine ⟨?_, rfl, ?_⟩
    · rw [List.length_take]
      omega
    · rw [if_pos h]
  · intro h
    refine ⟨List.take_of_length_le h, ?_⟩
    rw [if_neg (by omega)]
  · intro h
    refine ⟨?_, rfl, ?_⟩
    · simp only [crate_owners_listing, List.length_take]
      omega
    · simp only [crate_owners_listing]
      rw [if_pos h]
  · intro h
    refine ⟨?_, ?_⟩
    · simp only [crate_owners_listing]
      exact List.take_of_length_le h
    · simp only [crate_owners_listing]
      rw [if_neg (by omega)]

theorem truncation_thresholds_witness :
    user_repos_render (List.replicate 16 "r") =
      some (List.replicate 15 "r", some 1) ∧
    crate_owners_listing ["a", "b", "c"] = (["a", "b", "c"], none) := by
  obtain ⟨shown, footer, heq, h15, _, _, hle5⟩ :=
    truncation_thresholds (List.replicate 16 "r") ["a", "b", "c"] (by decide)
  have h := h15 (by decide)
  have h5 := hle5 (by decide)
  constructor
  · rw [heq, h.2.1, h.2.2]
    decide
  · have : crate_owners_listing ["a", "b", "c"] =
        ((crate_owners_listing ["a", "b", "c"]).1, (crate_owners_listing ["a", "b", "c"]).2) := rfl
    rw [this, h5.1, h5.2]
